import Mathlib

/-!
Verification of the punchcard repository's encoding and deck model.

Shallow embedding conventions:
* Rust `String`s that are processed character-wise are modelled as `List Char`
  (the Rust code always iterates with `.chars()`); static table entries keep
  their `String` literals and are converted with `String.toList` at use sites.
* `u16` / `usize` values are modelled as `Nat`; every value produced here is
  far below the machine widths, so no wrap-around is modelled.
* `Result<T, E>` becomes `Except String T` (error payloads carry a fixed
  message; the claims under check never depend on message contents).
* Methods taking `&mut self` and returning `Result<()>` become functions
  `Deck → args → Except String Unit × Deck`, returning the outcome together
  with the (possibly unchanged) state, mirroring Rust's in-place mutation.
* `HashMap` lookup over a duplicate-free association table is modelled with
  `List.lookup` over the same table.
-/

/- ===== src/encoding.rs ===== -/

/-- Bit position for each of the 12 characters of an IBM029 bit string
(row order in the string: 12, 11, 0, 1, ..., 9; bit 11 = row 12,
bit 10 = row 11, bit i = row i for 0 ≤ i ≤ 9). -/
def ROW_BIT_ORDER : List Nat := [11, 10, 0, 1, 2, 3, 4, 5, 6, 7, 8, 9]

/-- `mask_from_bits` of src/encoding.rs: fold the 12-character bit string into
a 12-bit hole mask, setting bit `ROW_BIT_ORDER[idx]` for each '1'. -/
def mask_from_bits (bits : List Char) : Nat :=
  (bits.zip ROW_BIT_ORDER).foldl
    (fun value p => if p.1 = '1' then value ||| (1 <<< p.2) else value) 0

/-- `IBM029_TABLE` of src/encoding.rs, transcribed verbatim. -/
def IBM029_TABLE : List (Char × String) := [
  ('&', "100000000000"),
  ('-', "010000000000"),
  ('0', "001000000000"),
  ('1', "000100000000"),
  ('2', "000010000000"),
  ('3', "000001000000"),
  ('4', "000000100000"),
  ('5', "000000010000"),
  ('6', "000000001000"),
  ('7', "000000000100"),
  ('8', "000000000010"),
  ('9', "000000000001"),
  ('A', "100100000000"),
  ('B', "100010000000"),
  ('C', "100001000000"),
  ('D', "100000100000"),
  ('E', "100000010000"),
  ('F', "100000001000"),
  ('G', "100000000100"),
  ('H', "100000000010"),
  ('I', "100000000001"),
  ('J', "010100000000"),
  ('K', "010010000000"),
  ('L', "010001000000"),
  ('M', "010000100000"),
  ('N', "010000010000"),
  ('O', "010000001000"),
  ('P', "010000000100"),
  ('Q', "010000000010"),
  ('R', "010000000001"),
  ('/', "001100000000"),
  ('S', "001010000000"),
  ('T', "001001000000"),
  ('U', "001000100000"),
  ('V', "001000010000"),
  ('W', "001000001000"),
  ('X', "001000000100"),
  ('Y', "001000000010"),
  ('Z', "001000000001"),
  (':', "000010000010"),
  ('#', "000001000010"),
  ('@', "000000100010"),
  ('\'', "000000010010"),
  ('=', "000000001010"),
  ('\"', "000000000110"),
  ('¢', "100010000010"),
  ('.', "100001000010"),
  ('<', "100000100010"),
  ('(', "100000010010"),
  ('+', "100000001010"),
  ('|', "100000000110"),
  ('!', "010010000010"),
  ('$', "010001000010"),
  ('*', "010000100010"),
  (')', "010000010010"),
  (';', "010000001010"),
  ('¬', "010000000110"),
  (' ', "000000000000"),
  (',', "001001000010"),
  ('%', "001000100010"),
  ('_', "001000010010"),
  ('>', "001000001010"),
  ('?', "001000000110")]

/-- `Ibm029Encoder::encode_char`: case-fold ASCII lowercase to uppercase, then
look the character up in the table (the Rust code consults a `HashMap` built
from `IBM029_TABLE` with `mask_from_bits` applied to each entry; the table has
no duplicate keys, so `List.lookup` agrees with it). `none` models
`EncodeError::Unsupported`. -/
def Ibm029Encoder.encode_char (ch : Char) : Option Nat :=
  let up := if ch.isLower then ch.toUpper else ch
  (IBM029_TABLE.lookup up).map (fun bits => mask_from_bits bits.toList)

/-- The supported character set of the IBM029 encoder: exactly the keys of
`IBM029_TABLE` (digits, uppercase letters, space, and the listed specials). -/
def ibm029_supported : List Char := IBM029_TABLE.map Prod.fst

/- ===== src/punchcards.rs ===== -/

def COLS : Nat := 80

/-- `PunchCard` of src/punchcards.rs: 80 per-column hole masks (`[CellMask; 80]`,
modelled as a list of `Nat`) plus the raw text. -/
structure PunchCard where
  cols : List Nat
  raw_text : List Char
deriving Repr, DecidableEq, Inhabited

/-- `PunchCard::new`: blank card, all masks zero, empty text. -/
def PunchCard.new : PunchCard := ⟨List.replicate COLS 0, []⟩

/-- `PunchCard::from_str`: keep the first 80 characters as `raw_text` and
encode each of them into its column mask (columns past the text keep mask 0,
as in `PunchCard::new`); `none` models an encoding error. The encoder is
passed as a function `Char → Option Nat`, mirroring the `PunchEncoding`
trait object. -/
def PunchCard.from_str (enc : Char → Option Nat) (s : List Char) : Option PunchCard :=
  ((s.take COLS).mapM enc).map
    (fun ms => ⟨ms ++ List.replicate (COLS - ms.length) 0, s.take COLS⟩)

/-- Decimal formatting `format!("{:>width}", n)`: right-align the decimal
digits of `n` in a field of `width`, padding on the left with spaces (the
result is longer than `width` when `n` has more digits). -/
def format_right_aligned (width : Nat) (n : Nat) : List Char :=
  let s := (Nat.repr n).toList
  List.replicate (width - s.length) ' ' ++ s

/-- The `for (offset, ch) in seq_str.chars().enumerate()` loop of
`PunchCard::with_sequence`, with the write index precomputed for each
character: skip columns whose character is not a space, otherwise write the
character and re-encode that column's mask (failure of the encoder aborts
the whole call). -/
def with_sequence_loop (enc : Char → Option Nat) :
    List (Nat × Char) → List Char → List Nat → Option (List Char × List Nat)
  | [], chars, cols => some (chars, cols)
  | (idx, ch) :: rest, chars, cols =>
    if chars.getD idx ' ' ≠ ' ' then with_sequence_loop enc rest chars cols
    else
      match enc ch with
      | none => none
      | some m => with_sequence_loop enc rest (chars.set idx ch) (cols.set idx m)

/-- `PunchCard::with_sequence`: format the sequence number right-aligned in 9
columns, pad the text to 80 columns if shorter, then write each character of
the formatted number at `start + offset` (where `start = 80 -| length`),
skipping columns already holding a non-space character. -/
def PunchCard.with_sequence (enc : Char → Option Nat) (card : PunchCard) (seq : Nat) :
    Option PunchCard :=
  let seq_str := format_right_aligned 9 seq
  let start := COLS - seq_str.length
  let chars :=
    if card.raw_text.length < COLS then
      card.raw_text ++ List.replicate (COLS - card.raw_text.length) ' '
    else card.raw_text
  (with_sequence_loop enc (seq_str.enum.map (fun p => (start + p.1, p.2))) chars card.cols).map
    (fun st => ⟨st.2, st.1⟩)

/-- The `match r` of `render_ascii` selecting the mask bit for row-line `r`
(line 0 is physical row 12 → bit 11, line 1 is row 11 → bit 10, line `r ≥ 2`
is digit row `r - 2` → bit `r - 2`). -/
def rowBit (r : Nat) : Nat := if r = 0 then 11 else if r = 1 then 10 else r - 2

/-- The column ruler of `render_ascii`: '.' everywhere except a tens digit at
every 10th column. -/
def render_ruler : List Char :=
  (List.range' 1 COLS).map (fun col =>
    if col % 10 = 0 then Char.ofNat (48 + (col / 10) % 10) else '.')

/-- The text line body of `render_ascii`: the first 80 characters of
`raw_text`, padded with spaces. -/
def render_text_line (card : PunchCard) : List Char :=
  "     ".toList ++ (List.range COLS).map (fun i => card.raw_text.getD i ' ')

/-- Row labels of `render_ascii`, in emission order. -/
def row_labels : List String :=
  ["12", "11", " 0", " 1", " 2", " 3", " 4", " 5", " 6", " 7", " 8", " 9"]

/-- `format!("{:>3}", label)`. -/
def pad_left (width : Nat) (s : List Char) : List Char :=
  List.replicate (width - s.length) ' ' ++ s

/-- The 80-character body of one row line of `render_ascii`: column `c` shows
`mark` exactly when bit `rowBit r` of column `c`'s mask is set. -/
def PunchCard.render_row (card : PunchCard) (mark blank : Char) (r : Nat) : List Char :=
  (List.range COLS).map (fun c =>
    if ((card.cols.getD c 0) >>> rowBit r) &&& 1 = 1 then mark else blank)

/-- `PunchCard::render_ascii`, as the list of output lines (the Rust code
emits them `writeln!`-separated): header, ruler, text, separator, the 12 row
lines (3-char label, " |", 80 cells, "|"), separator. -/
def PunchCard.render_ascii (card : PunchCard) (mark blank : Char) : List (List Char) :=
  ("IBM 5081 (80 cols) [IBM029]".toList) ::
    ("     ".toList ++ render_ruler) ::
    render_text_line card ::
    ("     ".toList ++ List.replicate COLS '-') ::
    (row_labels.enum.map (fun p =>
      pad_left 3 p.2.toList ++ [' ', '|'] ++ card.render_row mark blank p.1 ++ ['|']) ++
      [("     ".toList ++ List.replicate COLS '-')])

/-- `RenderStyle` of src/punchcards.rs. -/
inductive RenderStyle where
  | AsciiX
  | Ascii01
deriving Repr, DecidableEq

/-- `PunchCard::render`: dispatch on the style's mark/blank characters. -/
def PunchCard.render (card : PunchCard) (style : RenderStyle) : List (List Char) :=
  match style with
  | RenderStyle.AsciiX => card.render_ascii 'X' ' '
  | RenderStyle.Ascii01 => card.render_ascii '1' '0'

/-- Whether physical row `row` (named 12, 11, or 0–9) is punched in column
`col`, per the documented mask layout of src/encoding.rs (bit 11 = row 12,
bit 10 = row 11, bit i = row i for 0 ≤ i ≤ 9). -/
def hole_punched (card : PunchCard) (row col : Nat) : Bool :=
  let bit := if row = 12 then 11 else if row = 11 then 10 else row
  ((card.cols.getD col 0) >>> bit) &&& 1 = 1

/-- The physical rows in the order `render_ascii` emits them. -/
def physical_rows : List Nat := [12, 11, 0, 1, 2, 3, 4, 5, 6, 7, 8, 9]

/- ===== src/deck.rs ===== -/

def MAX_COLS : Nat := 80

/-- `ColumnRange` of src/deck.rs: inclusive 1-based column range. The Rust
field `end` is a Lean keyword and is renamed `stop`. -/
structure ColumnRange where
  start : Nat
  stop : Nat
deriving Repr, DecidableEq, Inhabited

/-- `CardType` of src/deck.rs. -/
inductive CardType where
  | Code
  | Data
  | Jcl
  | Comment
  | Separator
  | Patch
deriving Repr, DecidableEq, Inhabited

/-- `CardMeta` of src/deck.rs. -/
structure CardMeta where
  color : Option (List Char)
  note : Option (List Char)
deriving Repr, DecidableEq, Inhabited

/-- `EncodingKind` of src/deck.rs. -/
inductive EncodingKind where
  | Hollerith
  | Ascii
  | Ebcdic
deriving Repr, DecidableEq, Inhabited

/-- `CardRecord` of src/deck.rs. -/
structure CardRecord where
  text : Option (List Char)
  punches : Option (List Char)
  encoding : EncodingKind
  seq : Option Nat
  card_type : CardType
  protected_cols : List ColumnRange
  meta : CardMeta
deriving Repr, DecidableEq, Inhabited

/-- `AuditEvent` of src/deck.rs; the `DateTime<Utc>` timestamp is modelled as
a `Nat`. `AuditEvent::new` reads the clock and the USER/USERNAME environment
variables; events are therefore passed explicitly to the operations below. -/
structure AuditEvent where
  timestamp : Nat
  actor : List Char
  action : List Char
deriving Repr, DecidableEq, Inhabited

/-- `DeckHeader` of src/deck.rs (`created_at` timestamp modelled as `Nat`). -/
structure DeckHeader where
  version : Nat
  created_at : Nat
  language : Option (List Char)
  template : Option (List Char)
  protected_cols : List ColumnRange
  readonly : Bool
  history : List AuditEvent
deriving Repr, DecidableEq, Inhabited

/-- `Deck` of src/deck.rs. The `path: Option<PathBuf>` field only feeds file
I/O (`load`/`save`) and is omitted; no operation under check reads it. -/
structure Deck where
  header : DeckHeader
  cards : List CardRecord
deriving Repr, DecidableEq, Inhabited

/-- `Deck::new`: empty deck with the given header. -/
def Deck.new (header : DeckHeader) : Deck := ⟨header, []⟩

/-- `normalize_card_text` of src/deck.rs: reject text over 80 columns,
otherwise pad with trailing spaces to exactly 80. -/
def normalize_card_text (text : List Char) : Except String (List Char) :=
  if text.length > MAX_COLS then
    Except.error "card text must not exceed 80 columns"
  else Except.ok (text ++ List.replicate (MAX_COLS - text.length) ' ')

/-- `CardRecord::from_text`. -/
def CardRecord.from_text (text : List Char) (encoding : EncodingKind)
    (card_type : CardType) : Except String CardRecord :=
  (normalize_card_text text).map (fun normalized =>
    { text := some normalized, punches := none, encoding := encoding, seq := none,
      card_type := card_type, protected_cols := [], meta := ⟨none, none⟩ })

/-- One column check of `Deck::enforce_protection`: fetch the new character at
the (1-based) column; against a prior occupant it must be unchanged, against
no prior occupant it must be a space. -/
def check_protected_col (old_text : Option (List Char)) (new_text : List Char)
    (col : Nat) : Except String Unit :=
  match new_text.get? (col - 1) with
  | none => Except.error "card text shorter than protected column"
  | some new_char =>
    match old_text with
    | some old =>
      match old.get? (col - 1) with
      | none => Except.error "card text shorter than protected column"
      | some old_char =>
        if new_char ≠ old_char then
          Except.error "column is protected; attempted to change it"
        else Except.ok ()
    | none =>
      if new_char ≠ ' ' then
        Except.error "column is protected; new cards must leave it blank"
      else Except.ok ()

/-- The inner `for col in range.start..=range.end` loop of
`Deck::enforce_protection`, over an explicit column list. -/
def check_protected_cols (old_text : Option (List Char)) (new_text : List Char) :
    List Nat → Except String Unit
  | [] => Except.ok ()
  | col :: rest =>
    match check_protected_col old_text new_text col with
    | Except.error e => Except.error e
    | Except.ok _ => check_protected_cols old_text new_text rest

/-- The columns of the inclusive range `start..=stop` (empty when
`start > stop`, as in Rust). -/
def ColumnRange.columns (r : ColumnRange) : List Nat :=
  List.range' r.start (r.stop + 1 - r.start)

/-- The outer `for range in &self.header.protected_cols` loop of
`Deck::enforce_protection`. -/
def check_protected_ranges (old_text : Option (List Char)) (new_text : List Char) :
    List ColumnRange → Except String Unit
  | [] => Except.ok ()
  | r :: rest =>
    match check_protected_cols old_text new_text r.columns with
    | Except.error e => Except.error e
    | Except.ok _ => check_protected_ranges old_text new_text rest

/-- `Deck::enforce_protection`: trivially accepts when the header declares no
protected columns; otherwise the new card must have text, and every protected
column is checked against the prior occupant's text (if any). -/
def Deck.enforce_protection (d : Deck) (original : Option CardRecord)
    (updated : CardRecord) : Except String Unit :=
  if d.header.protected_cols.isEmpty then Except.ok ()
  else
    match updated.text with
    | none => Except.error "card without text cannot be checked for protection"
    | some new_text =>
      check_protected_ranges (original.bind (fun c => c.text)) new_text
        d.header.protected_cols

/-- `Deck::append_card` (`fn(&mut self, card) -> Result<()>`, modelled as
outcome × resulting state): enforce protection, then push. -/
def Deck.append_card (d : Deck) (card : CardRecord) : Except String Unit × Deck :=
  match d.enforce_protection none card with
  | Except.error e => (Except.error e, d)
  | Except.ok _ => (Except.ok (), { d with cards := d.cards ++ [card] })

/-- `Deck::insert_card`: bounds check (`index ≤ len`), protection, insert. -/
def Deck.insert_card (d : Deck) (index : Nat) (card : CardRecord) :
    Except String Unit × Deck :=
  if index > d.cards.length then (Except.error "card index out of range", d)
  else
    match d.enforce_protection none card with
    | Except.error e => (Except.error e, d)
    | Except.ok _ => (Except.ok (), { d with cards := d.cards.insertIdx index card })

/-- `Deck::replace_card`: bounds check (`index < len`), protection against the
previous occupant, then overwrite the slot. -/
def Deck.replace_card (d : Deck) (index : Nat) (card : CardRecord) :
    Except String Unit × Deck :=
  if index ≥ d.cards.length then (Except.error "card index out of range", d)
  else
    match d.enforce_protection (some (d.cards.getD index default)) card with
    | Except.error e => (Except.error e, d)
    | Except.ok _ => (Except.ok (), { d with cards := d.cards.set index card })

/-- The digit-writing loop of `Deck::number_sequence`: write each character of
the formatted value at consecutive indices, guarded by `idx < chars.len()`
(this write is destructive — no blank check). -/
def number_sequence_write : List Char → Nat → List Char → List Char
  | chars, _, [] => chars
  | chars, idx, ch :: rest =>
    number_sequence_write (if idx < chars.length then chars.set idx ch else chars)
      (idx + 1) rest

/-- The per-card body of `Deck::number_sequence`: set `seq`, and when the card
has text, pad it to at least 80 columns and overwrite the trailing columns
with `format!("{:>8}", value)` starting at `80 -| length`. -/
def number_sequence_card (value : Nat) (card : CardRecord) : CardRecord :=
  match card.text with
  | none => { card with seq := some value }
  | some text =>
    let chars := text ++ List.replicate (MAX_COLS - text.length) ' '
    let seq_str := format_right_aligned 8 value
    let start := MAX_COLS - seq_str.length
    { card with seq := some value,
                text := some (number_sequence_write chars start seq_str) }

/-- The card loop of `Deck::number_sequence`, threading `value += step`. -/
def number_sequence_go (step : Nat) : Nat → List CardRecord → List CardRecord
  | _, [] => []
  | value, card :: rest =>
    number_sequence_card value card :: number_sequence_go step (value + step) rest

/-- `Deck::number_sequence`. -/
def Deck.number_sequence (d : Deck) (start step : Nat) : Deck :=
  { d with cards := number_sequence_go step start d.cards }

/-- The comparator of `Deck::sort_by_sequence`, as a total boolean order
(`true` = keep/accept order): numbered cards by value, numbered before
un-numbered. -/
def seq_le (a b : CardRecord) : Bool :=
  match a.seq, b.seq with
  | some sa, some sb => sa ≤ sb
  | some _, none => true
  | none, some _ => false
  | none, none => true

/-- `Deck::sort_by_sequence` (Rust `sort_by` is a stable sort; modelled with
the stable `List.mergeSort`). -/
def Deck.sort_by_sequence (d : Deck) : Deck :=
  { d with cards := d.cards.mergeSort seq_le }

/-- `Deck::log_action`: append one audit event to the header history. -/
def Deck.log_action (d : Deck) (e : AuditEvent) : Deck :=
  { d with header := { d.header with history := d.header.history ++ [e] } }

/-- `Deck::merge_from` (`other` is taken by shared reference in Rust and is
never written): reject when `protected_cols`, `template`, or `language`
differ, otherwise append the other deck's cards and audit history in order. -/
def Deck.merge_from (d : Deck) (other : Deck) : Except String Unit × Deck :=
  if d.header.protected_cols ≠ other.header.protected_cols then
    (Except.error "protected columns mismatch between decks", d)
  else if d.header.template ≠ other.header.template then
    (Except.error "templates differ between decks", d)
  else if d.header.language ≠ other.header.language then
    (Except.error "languages differ between decks", d)
  else
    (Except.ok (),
      { d with
          cards := d.cards ++ other.cards,
          header := { d.header with history := d.header.history ++ other.header.history } })

/-- The index loop of `Deck::slice_indices`: bounds-check each index, pushing
the selected card onto the new deck's card list. -/
def slice_indices_go (d : Deck) : List Nat → List CardRecord → Except String (List CardRecord)
  | [], acc => Except.ok acc
  | idx :: rest, acc =>
    if idx ≥ d.cards.length then Except.error "card index out of range"
    else slice_indices_go d rest (acc ++ [d.cards.getD idx default])

/-- `Deck::slice_indices`: new deck with the same header, holding exactly the
cards at the given indices in the given order. -/
def Deck.slice_indices (d : Deck) (indices : List Nat) : Except String Deck :=
  (slice_indices_go d indices []).map (fun cards => { Deck.new d.header with cards := cards })

/-- Flip only the header's readonly flag (used to state that no operation
reads it). -/
def Deck.set_readonly (d : Deck) (b : Bool) : Deck :=
  { d with header := { d.header with readonly := b } }

/-- The mutation+audit portion of the CLI `card add` handler
(src/cli/card.rs `add`), specialized to a single input line: insert at
`position.saturating_sub(1)` (or append when no position is given), and only
on success log one "card add" audit event; an error propagates via `?` and
the deck is dropped unsaved. -/
def cli_card_add : Deck → Option Nat → CardRecord → AuditEvent → Except String Deck
  | d, some pos, record, e =>
    match d.insert_card (pos - 1) record with
    | (Except.error err, _) => Except.error err
    | (Except.ok _, d') => Except.ok (d'.log_action e)
  | d, none, record, e =>
    match d.append_card record with
    | (Except.error err, _) => Except.error err
    | (Except.ok _, d') => Except.ok (d'.log_action e)

/- ===== Sample data used by witnesses and counterexamples ===== -/

/-- A minimal header: no language/template, no protected columns, no history. -/
def sample_header : DeckHeader := ⟨1, 0, none, none, [], false, []⟩

/-- An all-blank 80-column card. -/
def sample_card : CardRecord :=
  ⟨some (List.replicate 80 ' '), none, EncodingKind.Hollerith, none,
    CardType.Code, [], ⟨none, none⟩⟩

/-- A blank card tagged with sequence number `n` (used to tell cards apart). -/
def sample_card_seq (n : Nat) : CardRecord := { sample_card with seq := some n }

/-- A fixed audit event (timestamps and actor resolution are external inputs;
see `AuditEvent`). -/
def sample_event : AuditEvent := ⟨0, "user".toList, "card add".toList⟩

/-- The text "HELLO" padded to 80 columns. -/
def hello_text : List Char := "HELLO".toList ++ List.replicate 75 ' '

/-- The expected `AsciiX` rendering of the "HELLO" card, line by line, per
the published IBM 029 chart: H = rows 12+8, E = 12+5, L = 11+3 (twice),
O = 11+6; all marks sit in columns 1–5 and columns 6–80 are blank. -/
def hello_expected_render : List (List Char) :=
  [ "IBM 5081 (80 cols) [IBM029]".toList,
    ("     .........1.........2.........3.........4.........5.........6.........7.........8").toList,
    "     HELLO".toList ++ List.replicate 75 ' ',
    "     ".toList ++ List.replicate 80 '-',
    " 12 |XX".toList ++ List.replicate 78 ' ' ++ ['|'],
    " 11 |  XXX".toList ++ List.replicate 75 ' ' ++ ['|'],
    "  0 |".toList ++ List.replicate 80 ' ' ++ ['|'],
    "  1 |".toList ++ List.replicate 80 ' ' ++ ['|'],
    "  2 |".toList ++ List.replicate 80 ' ' ++ ['|'],
    "  3 |  XX".toList ++ List.replicate 76 ' ' ++ ['|'],
    "  4 |".toList ++ List.replicate 80 ' ' ++ ['|'],
    "  5 | X".toList ++ List.replicate 78 ' ' ++ ['|'],
    "  6 |    X".toList ++ List.replicate 75 ' ' ++ ['|'],
    "  7 |".toList ++ List.replicate 80 ' ' ++ ['|'],
    "  8 |X".toList ++ List.replicate 79 ' ' ++ ['|'],
    "  9 |".toList ++ List.replicate 80 ' ' ++ ['|'],
    "     ".toList ++ List.replicate 80 '-' ]

/-- A blank punch card with empty raw text. -/
def sample_blank_punchcard : PunchCard := ⟨List.replicate 80 0, []⟩

/-- The result of stamping sequence number 42 onto the blank card: columns
72–80 hold `format!("{:>9}", 42)` and the two digit columns carry the digit
masks (row 4 → bit 4, row 2 → bit 2). -/
def sample_seq42_punchcard : PunchCard :=
  ⟨List.replicate 78 0 ++ [16, 4], List.replicate 71 ' ' ++ "       42".toList⟩

/-- Decidable equality for `Except` (not provided by core), so that concrete
outcomes can be checked with `decide`. -/
instance {e a : Type} [DecidableEq e] [DecidableEq a] : DecidableEq (Except e a) :=
  fun x y =>
    match x, y with
    | Except.error e1, Except.error e2 =>
      if h : e1 = e2 then Decidable.isTrue (by rw [h])
      else Decidable.isFalse (fun hc => by cases hc; exact h rfl)
    | Except.error _, Except.ok _ => Decidable.isFalse (fun hc => by cases hc)
    | Except.ok _, Except.error _ => Decidable.isFalse (fun hc => by cases hc)
    | Except.ok a1, Except.ok a2 =>
      if h : a1 = a2 then Decidable.isTrue (by rw [h])
      else Decidable.isFalse (fun hc => by cases hc; exact h rfl)

/- ===== Theorems ===== -/

set_option maxRecDepth 100000

set_option maxHeartbeats 1000000

/-- C1: the IBM-029 encoder is injective over the supported set — for any two
distinct characters in the supported set (digits, uppercase letters, space,
and the listed special characters), `encode_char` returns different 12-bit
masks. -/
theorem C1_encode_char_injective :
    ∀ a ∈ ibm029_supported, ∀ b ∈ ibm029_supported, a ≠ b →
      Ibm029Encoder.encode_char a ≠ Ibm029Encoder.encode_char b := by decide

/-- Witness for C1 at the concrete pair 'A', 'B'. -/
theorem C1_encode_char_injective_witness :
    'A' ∈ ibm029_supported ∧ 'B' ∈ ibm029_supported ∧
      Ibm029Encoder.encode_char 'A' ≠ Ibm029Encoder.encode_char 'B' :=
  ⟨by decide, by decide,
    C1_encode_char_injective 'A' (by decide) 'B' (by decide) (by decide)⟩

/- ===== C8 ===== -/

/-- C8: `normalize_card_text` (the normalization performed by
`CardRecord::from_text`) rejects text longer than 80 characters; for text of
at most 80 characters it pads with trailing spaces to exactly 80 without
altering existing characters; already-80-column text is returned unchanged,
and normalization is idempotent. -/
theorem C8_normalize_pad_idempotent (t : List Char) (encoding : EncodingKind)
    (card_type : CardType) :
    (t.length > 80 →
      (∃ e, normalize_card_text t = Except.error e) ∧
      (∃ e, CardRecord.from_text t encoding card_type = Except.error e)) ∧
    (t.length ≤ 80 →
      normalize_card_text t = Except.ok (t ++ List.replicate (80 - t.length) ' ') ∧
      (t ++ List.replicate (80 - t.length) ' ').length = 80 ∧
      (t ++ List.replicate (80 - t.length) ' ').take t.length = t ∧
      ∃ c, CardRecord.from_text t encoding card_type = Except.ok c ∧
        c.text = some (t ++ List.replicate (80 - t.length) ' ')) ∧
    (t.length = 80 → normalize_card_text t = Except.ok t) ∧
    (∀ n, normalize_card_text t = Except.ok n → normalize_card_text n = Except.ok n) := by
  have hid : ∀ u : List Char, u.length = 80 → normalize_card_text u = Except.ok u := by
    intro u hu
    unfold normalize_card_text
    rw [if_neg (by simp [MAX_COLS, hu])]
    simp [MAX_COLS, hu]
  have herr : t.length > 80 →
      normalize_card_text t = Except.error "card text must not exceed 80 columns" := by
    intro h
    unfold normalize_card_text
    rw [if_pos (by simp only [MAX_COLS]; omega)]
  have hok : t.length ≤ 80 →
      normalize_card_text t = Except.ok (t ++ List.replicate (80 - t.length) ' ') := by
    intro h
    unfold normalize_card_text
    rw [if_neg (by simp only [MAX_COLS]; omega)]
    simp only [MAX_COLS]
  refine ⟨?_, ?_, ?_, ?_⟩
  · intro h
    refine ⟨⟨_, herr h⟩, ⟨"card text must not exceed 80 columns", ?_⟩⟩
    unfold CardRecord.from_text
    rw [herr h]
    rfl
  · intro h
    refine ⟨hok h, by simp; omega, List.take_left t _, ?_⟩
    refine ⟨{ text := some (t ++ List.replicate (80 - t.length) ' '), punches := none,
              encoding := encoding, seq := none, card_type := card_type,
              protected_cols := [], meta := ⟨none, none⟩ }, ?_, rfl⟩
    unfold CardRecord.from_text
    rw [hok h]
    rfl
  · exact fun h => hid t h
  · intro n hn
    have hle : t.length ≤ 80 := by
      by_contra hgt
      rw [herr (by omega)] at hn
      cases hn
    rw [hok hle] at hn
    cases hn
    exact hid _ (by simp; omega)

/-- Witness for C8: a 1-character text is padded to 80 columns; an 81-character
text is rejected. -/
theorem C8_normalize_pad_idempotent_witness :
    normalize_card_text ("A".toList) =
      Except.ok ("A".toList ++ List.replicate (80 - ("A".toList).length) ' ') ∧
    (∃ e, normalize_card_text (List.replicate 81 'Q') = Except.error e) :=
  ⟨((C8_normalize_pad_idempotent ("A".toList) EncodingKind.Hollerith
      CardType.Code).2.1 (by decide)).1,
    ((C8_normalize_pad_idempotent (List.replicate 81 'Q') EncodingKind.Hollerith
      CardType.Code).1 (by decide)).1⟩

/- ===== C5 ===== -/

/-- C5: `merge_from` fails (with a descriptive error, leaving the target deck
unchanged) exactly when the two headers differ in `protected_cols`,
`template`, or `language`; when all three agree it appends the other deck's
cards and audit history in order. The other deck is taken by shared
reference in Rust and is never written, so only the target's state appears
here. -/
theorem C5_merge_from (d other : Deck) :
    ((d.header.protected_cols ≠ other.header.protected_cols ∨
        d.header.template ≠ other.header.template ∨
        d.header.language ≠ other.header.language) →
      (∃ e, (d.merge_from other).1 = Except.error e) ∧ (d.merge_from other).2 = d) ∧
    (d.header.protected_cols = other.header.protected_cols →
      d.header.template = other.header.template →
      d.header.language = other.header.language →
      d.merge_from other =
        (Except.ok (),
          { d with
              cards := d.cards ++ other.cards,
              header := { d.header with
                history := d.header.history ++ other.header.history } })) := by
  constructor
  · intro h
    unfold Deck.merge_from
    split_ifs with h1 h2 h3
    · exact ⟨⟨_, rfl⟩, rfl⟩
    · exact ⟨⟨_, rfl⟩, rfl⟩
    · exact ⟨⟨_, rfl⟩, rfl⟩
    · simp only [ne_eq, not_not] at h1 h2 h3
      rcases h with h | h | h <;> contradiction
  · intro h1 h2 h3
    unfold Deck.merge_from
    split_ifs with g1 g2 g3
    · exact absurd h1 g1
    · exact absurd h2 g2
    · exact absurd h3 g3
    · rfl

/-- Witness for C5: merging two decks with identical (empty) header policy
succeeds and concatenates cards and history; merging into a deck whose
template differs fails and leaves the target unchanged. -/
theorem C5_merge_from_witness :
    ((Deck.new sample_header).merge_from ⟨sample_header, [sample_card]⟩ =
      (Except.ok (),
        { Deck.new sample_header with
            cards := (Deck.new sample_header).cards ++ [sample_card],
            header := { sample_header with
              history := sample_header.history ++ sample_header.history } })) ∧
    (∃ e,
      ((Deck.new { sample_header with template := some ("t".toList) }).merge_from
        (Deck.new sample_header)).1 = Except.error e) ∧
    ((Deck.new { sample_header with template := some ("t".toList) }).merge_from
        (Deck.new sample_header)).2 =
      Deck.new { sample_header with template := some ("t".toList) } :=
  ⟨(C5_merge_from (Deck.new sample_header) ⟨sample_header, [sample_card]⟩).2
      rfl rfl rfl,
    ((C5_merge_from (Deck.new { sample_header with template := some ("t".toList) })
        (Deck.new sample_header)).1 (Or.inr (Or.inl (by decide)))).1,
    ((C5_merge_from (Deck.new { sample_header with template := some ("t".toList) })
        (Deck.new sample_header)).1 (Or.inr (Or.inl (by decide)))).2⟩

/- ===== C6 ===== -/

/-- The index loop of `slice_indices` succeeds and selects exactly the
requested cards, in order, when every index is in range. -/
theorem slice_indices_go_ok (d : Deck) (l : List Nat) :
    ∀ acc, (∀ i ∈ l, i < d.cards.length) →
      slice_indices_go d l acc =
        Except.ok (acc ++ l.map (fun i => d.cards.getD i default)) := by
  induction l with
  | nil => intro acc _; simp [slice_indices_go]
  | cons x xs ih =>
    intro acc h
    have hx : x < d.cards.length := h x (by simp)
    rw [slice_indices_go, if_neg (by omega)]
    rw [ih (acc ++ [d.cards.getD x default]) (fun i hi => h i (by simp [hi]))]
    simp

/-- The index loop of `slice_indices` fails when some index is out of range. -/
theorem slice_indices_go_err (d : Deck) (l : List Nat) :
    ∀ acc, (∃ i ∈ l, d.cards.length ≤ i) →
      ∃ e, slice_indices_go d l acc = Except.error e := by
  induction l with
  | nil => intro acc h; simp at h
  | cons x xs ih =>
    intro acc h
    by_cases hx : d.cards.length ≤ x
    · exact ⟨_, by rw [slice_indices_go, if_pos hx]⟩
    · rw [slice_indices_go, if_neg hx]
      rcases h with ⟨i, hi, hlen⟩
      rcases List.mem_cons.mp hi with rfl | hmem
      · exact absurd hlen hx
      · exact ih _ ⟨i, hmem, hlen⟩

/-- C6: `slice_indices` returns a new deck with the same header whose card
sequence is exactly the cards at the given zero-based indices in the given
order (duplicates and arbitrary order preserved), and fails with an error if
any index is at or beyond the deck's length. -/
theorem C6_slice_indices (d : Deck) (indices : List Nat) :
    ((∀ i ∈ indices, i < d.cards.length) →
      d.slice_indices indices =
        Except.ok ⟨d.header, indices.map (fun i => d.cards.getD i default)⟩) ∧
    ((∃ i ∈ indices, d.cards.length ≤ i) →
      ∃ e, d.slice_indices indices = Except.error e) := by
  constructor
  · intro h
    unfold Deck.slice_indices
    rw [slice_indices_go_ok d indices [] h]
    rfl
  · intro h
    rcases slice_indices_go_err d indices [] h with ⟨e, he⟩
    exact ⟨e, by unfold Deck.slice_indices; rw [he]; rfl⟩

/-- Witness for C6: slicing `[2, 0, 1]` out of a 3-card deck yields the cards
in order `[card2, card0, card1]`; index 3 on the same deck fails. -/
theorem C6_slice_indices_witness :
    (Deck.mk sample_header
        [sample_card_seq 0, sample_card_seq 1, sample_card_seq 2]).slice_indices
        [2, 0, 1] =
      Except.ok ⟨sample_header, [sample_card_seq 2, sample_card_seq 0, sample_card_seq 1]⟩ ∧
    ∃ e,
      (Deck.mk sample_header
          [sample_card_seq 0, sample_card_seq 1, sample_card_seq 2]).slice_indices
          [3] = Except.error e :=
  ⟨((C6_slice_indices
        (Deck.mk sample_header [sample_card_seq 0, sample_card_seq 1, sample_card_seq 2])
        [2, 0, 1]).1 (by decide)).trans (by rfl),
    (C6_slice_indices
        (Deck.mk sample_header [sample_card_seq 0, sample_card_seq 1, sample_card_seq 2])
        [3]).2 ⟨3, by decide, by decide⟩⟩

/- ===== C10 ===== -/

/-- C10: the header's `readonly` flag has no effect on any deck operation.
Every mutating operation (`append_card`, `insert_card`, `replace_card`,
`number_sequence`, `sort_by_sequence`, `merge_from` — on either side — and
`log_action`) returns the same outcome and the same new state (up to the
flag itself, which is merely carried along) whether `readonly` is true or
false; in particular no operation ever rejects a mutation because the deck
is marked read-only. -/
theorem C10_readonly_never_checked (d other : Deck) (b : Bool) (card : CardRecord)
    (index start step : Nat) (e : AuditEvent) (indices : List Nat) :
    ((d.set_readonly b).append_card card).1 = (d.append_card card).1 ∧
    ((d.set_readonly b).append_card card).2 = ((d.append_card card).2).set_readonly b ∧
    ((d.set_readonly b).insert_card index card).1 = (d.insert_card index card).1 ∧
    ((d.set_readonly b).insert_card index card).2 =
      ((d.insert_card index card).2).set_readonly b ∧
    ((d.set_readonly b).replace_card index card).1 = (d.replace_card index card).1 ∧
    ((d.set_readonly b).replace_card index card).2 =
      ((d.replace_card index card).2).set_readonly b ∧
    (d.set_readonly b).number_sequence start step =
      (d.number_sequence start step).set_readonly b ∧
    (d.set_readonly b).sort_by_sequence = d.sort_by_sequence.set_readonly b ∧
    ((d.set_readonly b).merge_from other).1 = (d.merge_from other).1 ∧
    ((d.set_readonly b).merge_from other).2 = ((d.merge_from other).2).set_readonly b ∧
    d.merge_from (other.set_readonly b) = d.merge_from other ∧
    (d.set_readonly b).log_action e = (d.log_action e).set_readonly b ∧
    (d.set_readonly b).slice_indices indices =
      (d.slice_indices indices).map (fun s => s.set_readonly b) := by
  have hc : (d.set_readonly b).cards = d.cards := rfl
  have hh : (d.set_readonly b).header.protected_cols = d.header.protected_cols := rfl
  have hht : (d.set_readonly b).header.template = d.header.template := rfl
  have hhl : (d.set_readonly b).header.language = d.header.language := rfl
  have hoc : (other.set_readonly b).cards = other.cards := rfl
  have hoh : (other.set_readonly b).header.protected_cols = other.header.protected_cols := rfl
  have hot : (other.set_readonly b).header.template = other.header.template := rfl
  have hol : (other.set_readonly b).header.language = other.header.language := rfl
  have hohist : (other.set_readonly b).header.history = other.header.history := rfl
  have henf : ∀ (orig : Option CardRecord) (c : CardRecord),
      (d.set_readonly b).enforce_protection orig c = d.enforce_protection orig c := by
    intro orig c
    rfl
  have hgo : ∀ (l : List Nat) (acc : List CardRecord),
      slice_indices_go (d.set_readonly b) l acc = slice_indices_go d l acc := by
    intro l
    induction l with
    | nil => intro acc; rfl
    | cons x xs ih =>
      intro acc
      unfold slice_indices_go
      simp only [hc]
      split_ifs with hx
      · rfl
      · exact ih _
  refine ⟨?_, ?_, ?_, ?_, ?_, ?_, ?_, ?_, ?_, ?_, ?_, ?_, ?_⟩
  · simp only [Deck.append_card, henf]
    cases d.enforce_protection none card <;> rfl
  · simp only [Deck.append_card, henf]
    cases d.enforce_protection none card <;> rfl
  · simp only [Deck.insert_card, henf, hc]
    split_ifs with hidx
    · rfl
    · cases d.enforce_protection none card <;> rfl
  · simp only [Deck.insert_card, henf, hc]
    split_ifs with hidx
    · rfl
    · cases d.enforce_protection none card <;> rfl
  · simp only [Deck.replace_card, henf, hc]
    split_ifs with hidx
    · rfl
    · cases d.enforce_protection (some (d.cards.getD index default)) card <;> rfl
  · simp only [Deck.replace_card, henf, hc]
    split_ifs with hidx
    · rfl
    · cases d.enforce_protection (some (d.cards.getD index default)) card <;> rfl
  · rfl
  · rfl
  · simp only [Deck.merge_from, hh, hht, hhl]
    split_ifs <;> rfl
  · simp only [Deck.merge_from, hh, hht, hhl]
    split_ifs <;> rfl
  · simp only [Deck.merge_from, hoh, hot, hol, hoc, hohist]
  · rfl
  · unfold Deck.slice_indices
    rw [hgo]
    cases slice_indices_go d indices [] <;> rfl


/- ===== C2 ===== -/

/-- `append_card` on a failing protection check: error, deck unchanged. -/
theorem append_card_eq_error (d : Deck) (card : CardRecord) (e : String)
    (h : d.enforce_protection none card = Except.error e) :
    d.append_card card = (Except.error e, d) := by
  unfold Deck.append_card
  rw [h]

/-- `append_card` on a passing protection check: push the card. -/
theorem append_card_eq_ok (d : Deck) (card : CardRecord)
    (h : d.enforce_protection none card = Except.ok ()) :
    d.append_card card = (Except.ok (), { d with cards := d.cards ++ [card] }) := by
  unfold Deck.append_card
  rw [h]

/-- `insert_card` with an out-of-range index: error, deck unchanged. -/
theorem insert_card_eq_oob (d : Deck) (index : Nat) (card : CardRecord)
    (h : index > d.cards.length) :
    d.insert_card index card = (Except.error "card index out of range", d) := by
  unfold Deck.insert_card
  rw [if_pos h]

/-- `insert_card` on a failing protection check: error, deck unchanged. -/
theorem insert_card_eq_error (d : Deck) (index : Nat) (card : CardRecord) (e : String)
    (hidx : ¬ index > d.cards.length)
    (h : d.enforce_protection none card = Except.error e) :
    d.insert_card index card = (Except.error e, d) := by
  unfold Deck.insert_card
  rw [if_neg hidx, h]

/-- `insert_card` on a passing protection check: insert at the index. -/
theorem insert_card_eq_ok (d : Deck) (index : Nat) (card : CardRecord)
    (hidx : ¬ index > d.cards.length)
    (h : d.enforce_protection none card = Except.ok ()) :
    d.insert_card index card =
      (Except.ok (), { d with cards := d.cards.insertIdx index card }) := by
  unfold Deck.insert_card
  rw [if_neg hidx, h]

/-- `replace_card` with an out-of-range index: error, deck unchanged. -/
theorem replace_card_eq_oob (d : Deck) (index : Nat) (card : CardRecord)
    (h : index ≥ d.cards.length) :
    d.replace_card index card = (Except.error "card index out of range", d) := by
  unfold Deck.replace_card
  rw [if_pos h]

/-- `replace_card` on a failing protection check: error, deck unchanged. -/
theorem replace_card_eq_error (d : Deck) (index : Nat) (card : CardRecord) (e : String)
    (hidx : ¬ index ≥ d.cards.length)
    (h : d.enforce_protection (some (d.cards.getD index default)) card =
      Except.error e) :
    d.replace_card index card = (Except.error e, d) := by
  unfold Deck.replace_card
  rw [if_neg hidx, h]

/-- `replace_card` on a passing protection check: overwrite the slot. -/
theorem replace_card_eq_ok (d : Deck) (index : Nat) (card : CardRecord)
    (hidx : ¬ index ≥ d.cards.length)
    (h : d.enforce_protection (some (d.cards.getD index default)) card =
      Except.ok ()) :
    d.replace_card index card =
      (Except.ok (), { d with cards := d.cards.set index card }) := by
  unfold Deck.replace_card
  rw [if_neg hidx, h]

/-- A passing column check with no prior occupant means the new character at
that column is a space. -/
theorem check_col_ok_no_original (new_text : List Char) (col : Nat) :
    check_protected_col none new_text col = Except.ok () →
    new_text[col - 1]? = some ' ' := by
  intro h
  cases hg : new_text[col - 1]? with
  | none => simp [check_protected_col, hg] at h
  | some ch =>
    by_cases hch : ch = ' '
    · rw [hch]
    · simp [check_protected_col, hg, hch] at h

/-- A passing column check against a prior occupant means the new and old
characters at that column agree (and both exist). -/
theorem check_col_ok_with_original (old new_text : List Char) (col : Nat) :
    check_protected_col (some old) new_text col = Except.ok () →
    ∃ ch, new_text[col - 1]? = some ch ∧ old[col - 1]? = some ch := by
  intro h
  cases hg : new_text[col - 1]? with
  | none => simp [check_protected_col, hg] at h
  | some ch =>
    cases ho : old[col - 1]? with
    | none => simp [check_protected_col, hg, ho] at h
    | some oc =>
      by_cases he : ch = oc
      · exact ⟨ch, rfl, by rw [he]⟩
      · simp [check_protected_col, hg, ho, he] at h

/-- A passing column-list check passes on each column in the list. -/
theorem check_cols_ok_forall (old_text : Option (List Char)) (new_text : List Char)
    (l : List Nat) :
    check_protected_cols old_text new_text l = Except.ok () →
    ∀ col ∈ l, check_protected_col old_text new_text col = Except.ok () := by
  induction l with
  | nil => intro _ col hc; simp at hc
  | cons x xs ih =>
    intro h col hc
    cases hx : check_protected_col old_text new_text x with
    | error e => simp [check_protected_cols, hx] at h
    | ok u =>
      cases u
      simp only [check_protected_cols, hx] at h
      rcases List.mem_cons.mp hc with rfl | hmem
      · exact hx
      · exact ih h col hmem

/-- A passing range-list check passes on each range's column list. -/
theorem check_ranges_ok_forall (old_text : Option (List Char)) (new_text : List Char)
    (rs : List ColumnRange) :
    check_protected_ranges old_text new_text rs = Except.ok () →
    ∀ r ∈ rs, check_protected_cols old_text new_text r.columns = Except.ok () := by
  induction rs with
  | nil => intro _ r hr; simp at hr
  | cons x xs ih =>
    intro h r hr
    cases hx : check_protected_cols old_text new_text x.columns with
    | error e => simp [check_protected_ranges, hx] at h
    | ok u =>
      cases u
      simp only [check_protected_ranges, hx] at h
      rcases List.mem_cons.mp hr with rfl | hmem
      · exact hx
      · exact ih h r hmem

/-- A column inside the inclusive bounds of a range is in its column list. -/
theorem mem_columns_of_bounds (r : ColumnRange) (col : Nat)
    (h1 : r.start ≤ col) (h2 : col ≤ r.stop) : col ∈ r.columns := by
  unfold ColumnRange.columns
  rw [List.mem_range'_1]
  omega

/-- C2: with protected columns declared in the header, `append_card` and
`insert_card` succeed only if the new card's text is a space in every
protected column, and `replace_card` succeeds only if the new card's text
agrees with the previous occupant's text in every protected column (when the
occupant has text); and whenever any of the three reports an error — a
protection violation, a bad index, or a missing text — the deck (header and
card sequence) is left unchanged. -/
theorem C2_protected_column_enforcement (d : Deck) (card : CardRecord) (index : Nat) :
    (((d.append_card card).1 ≠ Except.ok () → (d.append_card card).2 = d) ∧
      ((d.insert_card index card).1 ≠ Except.ok () → (d.insert_card index card).2 = d) ∧
      ((d.replace_card index card).1 ≠ Except.ok () → (d.replace_card index card).2 = d)) ∧
    (d.header.protected_cols ≠ [] →
      ((d.append_card card).1 = Except.ok () →
        ∃ t, card.text = some t ∧
          ∀ r ∈ d.header.protected_cols, ∀ col, r.start ≤ col → col ≤ r.stop →
            t[col - 1]? = some ' ') ∧
      ((d.insert_card index card).1 = Except.ok () →
        ∃ t, card.text = some t ∧
          ∀ r ∈ d.header.protected_cols, ∀ col, r.start ≤ col → col ≤ r.stop →
            t[col - 1]? = some ' ') ∧
      ((d.replace_card index card).1 = Except.ok () →
        ∃ t, card.text = some t ∧
          ∀ r ∈ d.header.protected_cols, ∀ col, r.start ≤ col → col ≤ r.stop →
            ∀ ot, (d.cards.getD index default).text = some ot →
              ∃ ch, t[col - 1]? = some ch ∧ ot[col - 1]? = some ch)) := by
  have hne_empty : d.header.protected_cols ≠ [] →
      d.header.protected_cols.isEmpty = false := by
    intro h
    cases hl : d.header.protected_cols with
    | nil => exact absurd hl h
    | cons a as => rfl
  have henf_none : d.header.protected_cols ≠ [] →
      d.enforce_protection none card = Except.ok () →
      ∃ t, card.text = some t ∧
        ∀ r ∈ d.header.protected_cols, ∀ col, r.start ≤ col → col ≤ r.stop →
          t[col - 1]? = some ' ' := by
    intro hne h
    unfold Deck.enforce_protection at h
    rw [if_neg (by simp [hne_empty hne])] at h
    cases ht : card.text with
    | none => rw [ht] at h; simp at h
    | some t =>
      rw [ht] at h
      refine ⟨t, rfl, ?_⟩
      intro r hr col h1 h2
      have hcols := check_ranges_ok_forall _ _ _ h r hr
      have hcol := check_cols_ok_forall _ _ _ hcols col (mem_columns_of_bounds r col h1 h2)
      exact check_col_ok_no_original t col hcol
  have henf_some : d.header.protected_cols ≠ [] →
      d.enforce_protection (some (d.cards.getD index default)) card = Except.ok () →
      ∃ t, card.text = some t ∧
        ∀ r ∈ d.header.protected_cols, ∀ col, r.start ≤ col → col ≤ r.stop →
          ∀ ot, (d.cards.getD index default).text = some ot →
            ∃ ch, t[col - 1]? = some ch ∧ ot[col - 1]? = some ch := by
    intro hne h
    unfold Deck.enforce_protection at h
    rw [if_neg (by simp [hne_empty hne])] at h
    cases ht : card.text with
    | none => rw [ht] at h; simp at h
    | some t =>
      rw [ht] at h
      refine ⟨t, rfl, ?_⟩
      intro r hr col h1 h2 ot hot
      have hcols := check_ranges_ok_forall _ _ _ h r hr
      have hcol := check_cols_ok_forall _ _ _ hcols col (mem_columns_of_bounds r col h1 h2)
      have hcol2 : check_protected_col (d.cards.getD index default).text t col =
          Except.ok () := hcol
      rw [hot] at hcol2
      exact check_col_ok_with_original ot t col hcol2
  refine ⟨⟨?_, ?_, ?_⟩, ?_⟩
  · intro hne
    cases h : d.enforce_protection none card with
    | error e => rw [append_card_eq_error d card e h]
    | ok u =>
      cases u
      exact absurd (by rw [append_card_eq_ok d card h]) hne
  · intro hne
    by_cases hidx : index > d.cards.length
    · rw [insert_card_eq_oob d index card hidx]
    · cases h : d.enforce_protection none card with
      | error e => rw [insert_card_eq_error d index card e hidx h]
      | ok u =>
        cases u
        exact absurd (by rw [insert_card_eq_ok d index card hidx h]) hne
  · intro hne
    by_cases hidx : index ≥ d.cards.length
    · rw [replace_card_eq_oob d index card hidx]
    · cases h : d.enforce_protection (some (d.cards.getD index default)) card with
      | error e => rw [replace_card_eq_error d index card e hidx h]
      | ok u =>
        cases u
        exact absurd (by rw [replace_card_eq_ok d index card hidx h]) hne
  · intro hne
    refine ⟨?_, ?_, ?_⟩
    · intro hok
      cases h : d.enforce_protection none card with
      | error e => rw [append_card_eq_error d card e h] at hok; simp at hok
      | ok u => cases u; exact henf_none hne h
    · intro hok
      by_cases hidx : index > d.cards.length
      · rw [insert_card_eq_oob d index card hidx] at hok; simp at hok
      · cases h : d.enforce_protection none card with
        | error e => rw [insert_card_eq_error d index card e hidx h] at hok; simp at hok
        | ok u => cases u; exact henf_none hne h
    · intro hok
      by_cases hidx : index ≥ d.cards.length
      · rw [replace_card_eq_oob d index card hidx] at hok; simp at hok
      · cases h : d.enforce_protection (some (d.cards.getD index default)) card with
        | error e => rw [replace_card_eq_error d index card e hidx h] at hok; simp at hok
        | ok u => cases u; exact henf_some hne h

/-- Witness for C2: a deck protecting column 1 rejects appending a card whose
column 1 is 'X' (leaving the deck unchanged), and accepts a blank card, whose
column 1 is then provably a space. -/
theorem C2_protected_column_enforcement_witness :
    ((Deck.mk { sample_header with protected_cols := [⟨1, 1⟩] }
        [sample_card]).append_card
        { sample_card with text := some ('X' :: List.replicate 79 ' ') }).2 =
      Deck.mk { sample_header with protected_cols := [⟨1, 1⟩] } [sample_card] ∧
    ∃ t, sample_card.text = some t ∧
      ∀ r ∈ (Deck.mk { sample_header with protected_cols := [⟨1, 1⟩] }
          [sample_card]).header.protected_cols,
        ∀ col, r.start ≤ col → col ≤ r.stop → t[col - 1]? = some ' ' :=
  ⟨(C2_protected_column_enforcement
        (Deck.mk { sample_header with protected_cols := [⟨1, 1⟩] } [sample_card])
        { sample_card with text := some ('X' :: List.replicate 79 ' ') } 0).1.1
      (by decide),
    ((C2_protected_column_enforcement
        (Deck.mk { sample_header with protected_cols := [⟨1, 1⟩] } [sample_card])
        sample_card 0).2 (by decide)).1 (by decide)⟩

/- ===== C7 ===== -/

/-- Counterexample for C7 as stated: `append_card` succeeds on a concrete deck
yet appends no audit event — the deck's history is unchanged. -/
theorem C7_counterexample_append_does_not_log :
    ((Deck.new sample_header).append_card sample_card).1 = Except.ok () ∧
    (((Deck.new sample_header).append_card sample_card).2).header.history =
      (Deck.new sample_header).header.history := by decide

/-- C7 (amended): the `Deck` mutation methods themselves never append audit
events — `append_card`, `insert_card` and `replace_card` leave the history
unchanged, `slice_indices` copies the header verbatim, and `merge_from` only
concatenates the other deck's history; the audit event for a mutation is
appended by the CLI command handlers, which call `log_action` after the
mutation succeeds (modelled by `cli_card_add`), so a successful handler run
ends with exactly one new event at the end of the history. -/
theorem C7_audit_logging (d other : Deck) (card : CardRecord)
    (index : Nat) (pos : Option Nat) (e : AuditEvent) (indices : List Nat) :
    ((d.append_card card).2).header.history = d.header.history ∧
    ((d.insert_card index card).2).header.history = d.header.history ∧
    ((d.replace_card index card).2).header.history = d.header.history ∧
    (∀ s, d.slice_indices indices = Except.ok s → s.header = d.header) ∧
    ((d.merge_from other).1 = Except.ok () →
      ((d.merge_from other).2).header.history =
        d.header.history ++ other.header.history) ∧
    (d.log_action e).header.history = d.header.history ++ [e] ∧
    (∀ d2, cli_card_add d pos card e = Except.ok d2 →
      d2.header.history = d.header.history ++ [e]) := by
  have happ : ((d.append_card card).2).header.history = d.header.history := by
    cases h : d.enforce_protection none card with
    | error e2 => rw [append_card_eq_error d card e2 h]
    | ok u => cases u; rw [append_card_eq_ok d card h]
  have hins : ∀ i, ((d.insert_card i card).2).header.history = d.header.history := by
    intro i
    by_cases hidx : i > d.cards.length
    · rw [insert_card_eq_oob d i card hidx]
    · cases h : d.enforce_protection none card with
      | error e2 => rw [insert_card_eq_error d i card e2 hidx h]
      | ok u => cases u; rw [insert_card_eq_ok d i card hidx h]
  refine ⟨happ, hins index, ?_, ?_, ?_, rfl, ?_⟩
  · by_cases hidx : index ≥ d.cards.length
    · rw [replace_card_eq_oob d index card hidx]
    · cases h : d.enforce_protection (some (d.cards.getD index default)) card with
      | error e2 => rw [replace_card_eq_error d index card e2 hidx h]
      | ok u => cases u; rw [replace_card_eq_ok d index card hidx h]
  · intro s hs
    unfold Deck.slice_indices at hs
    cases hgo : slice_indices_go d indices [] with
    | error e2 => rw [hgo] at hs; simp [Except.map] at hs
    | ok cards =>
      rw [hgo] at hs
      simp only [Except.map] at hs
      injection hs with h2
      rw [← h2]
      rfl
  · intro hok
    unfold Deck.merge_from at hok ⊢
    split_ifs at hok ⊢ with h1 h2 h3
    rfl
  · intro d2 h2
    cases pos with
    | none =>
      simp only [cli_card_add] at h2
      cases h : d.append_card card with
      | mk fst snd =>
        cases fst with
        | error err => rw [h] at h2; simp at h2
        | ok u =>
          cases u
          rw [h] at h2
          simp only at h2
          injection h2 with h3
          rw [← h3]
          unfold Deck.log_action
          have : snd.header.history = d.header.history := by
            have := happ
            rw [h] at this
            exact this
          simp [this]
    | some p =>
      simp only [cli_card_add] at h2
      cases h : d.insert_card (p - 1) card with
      | mk fst snd =>
        cases fst with
        | error err => rw [h] at h2; simp at h2
        | ok u =>
          cases u
          rw [h] at h2
          simp only at h2
          injection h2 with h3
          rw [← h3]
          unfold Deck.log_action
          have : snd.header.history = d.header.history := by
            have := hins (p - 1)
            rw [h] at this
            exact this
          simp [this]

/-- Witness for C7 (amended): running the CLI `card add` flow on a concrete
empty deck yields a deck whose history is exactly the one logged event. -/
theorem C7_audit_logging_witness :
    cli_card_add (Deck.new sample_header) none sample_card sample_event =
      Except.ok (Deck.mk { sample_header with history := [sample_event] } [sample_card]) ∧
    (Deck.mk { sample_header with history := [sample_event] } [sample_card]).header.history =
      (Deck.new sample_header).header.history ++ [sample_event] :=
  ⟨by decide,
    (C7_audit_logging (Deck.new sample_header) (Deck.new sample_header) sample_card 0
        none sample_event []).2.2.2.2.2.2
      (Deck.mk { sample_header with history := [sample_event] } [sample_card])
      (by decide)⟩

/- ===== C4 ===== -/

/-- Counterexample for C4 as stated: `number_sequence` writes the value
`format!("{:>8}", v)` — right-aligned and **space**-padded — into columns
73–80, not the zero-padded decimal the claim describes: sequencing a blank
card with value 10 ends in "      10", which differs from "00000010". -/
theorem C4_counterexample_not_zero_padded :
    (((Deck.mk sample_header [sample_card]).number_sequence 10 10).cards.getD 0
        default).text =
      some (List.replicate 72 ' ' ++ "      10".toList) ∧
    "      10".toList ≠ "00000010".toList := by decide

/-- The digit-writing loop overwrites the slice `[idx, idx + l.length)` of
the buffer with `l` and leaves everything else, provided the write fits. -/
theorem number_sequence_write_eq (l : List Char) :
    ∀ (chars : List Char) (idx : Nat), idx + l.length ≤ chars.length →
      number_sequence_write chars idx l =
        chars.take idx ++ l ++ chars.drop (idx + l.length) := by
  induction l with
  | nil =>
    intro chars idx h
    simp [number_sequence_write]
  | cons c cs ih =>
    intro chars idx h
    have hidx : idx < chars.length := by
      simp at h
      omega
    have hA : (chars.take idx).length = idx := by
      rw [List.length_take]
      omega
    rw [number_sequence_write, if_pos hidx,
      ih (chars.set idx c) (idx + 1) (by simp at h ⊢; omega),
      List.set_eq_take_cons_drop c hidx]
    have e1 : (chars.take idx ++ c :: chars.drop (idx + 1)).take (idx + 1) =
        chars.take idx ++ [c] := by
      rw [List.take_append_eq_append_take, hA,
        List.take_of_length_le (by rw [hA]; omega),
        show idx + 1 - idx = 1 from by omega]
      rfl
    have e2 : (chars.take idx ++ c :: chars.drop (idx + 1)).drop (idx + 1 + cs.length) =
        chars.drop (idx + (c :: cs).length) := by
      rw [List.drop_append_eq_append_drop, hA,
        List.drop_eq_nil_of_le (by rw [hA]; omega),
        show idx + 1 + cs.length - idx = cs.length + 1 from by omega,
        List.drop_succ_cons, List.drop_drop]
      simp only [List.nil_append, List.length_cons]
      congr 1
      omega
    rw [e1, e2]
    simp

/-- `number_sequence_go` maps card `i` to `number_sequence_card` at value
`value + i * step`. -/
theorem number_sequence_go_getD (step : Nat) :
    ∀ (cards : List CardRecord) (value i : Nat), i < cards.length →
      (number_sequence_go step value cards).getD i default =
        number_sequence_card (value + i * step) (cards.getD i default) := by
  intro cards
  induction cards with
  | nil => intro value i h; simp at h
  | cons a l ih =>
    intro value i h
    cases i with
    | zero => simp [number_sequence_go]
    | succ j =>
      have hj : j < l.length := by simp at h; omega
      simp only [number_sequence_go, List.getD_cons_succ]
      rw [ih (value + step) j hj]
      have : value + step + j * step = value + (j + 1) * step := by ring
      rw [this]

/-- `number_sequence_go` preserves the number of cards. -/
theorem number_sequence_go_length (step : Nat) :
    ∀ (cards : List CardRecord) (value : Nat),
      (number_sequence_go step value cards).length = cards.length := by
  intro cards
  induction cards with
  | nil => intro value; rfl
  | cons a l ih => intro value; simp [number_sequence_go, ih]

/-- The `format!("{:>8}", v)` field never exceeds 80 characters for values in
the machine-integer range (`usize < 2^64 < 10^20`). -/
theorem format_right_aligned_length_le (v : Nat) (hv : v < 10 ^ 20) :
    (format_right_aligned 8 v).length ≤ 80 := by
  have hrep : (Nat.repr v).length ≤ 20 := Nat.repr_length v 20 (by omega) hv
  have hlist : (Nat.repr v).toList.length = (Nat.repr v).length := rfl
  unfold format_right_aligned
  simp only [List.length_append, List.length_replicate]
  omega

/-- C4 (amended): `number_sequence` assigns sequence value `start + i * step`
to the i-th card (for all i), regardless of prior sequence values, and
overwrites the trailing columns of each card's text (when the card has text)
with the **right-aligned, space-padded** decimal representation of that value
in an 8-column field — `format!("{:>8}", v)` — not a zero-padded one; cards
without text only get the `seq` field set. The bound `start + i * step <
10^20` models the `usize` range (`2^64 < 10^20`), within which the formatted
field fits on the card. -/
theorem C4_number_sequence_assigns (d : Deck) (start step : Nat) :
    (d.number_sequence start step).cards.length = d.cards.length ∧
    ∀ i, i < d.cards.length →
      ((d.number_sequence start step).cards.getD i default).seq =
        some (start + i * step) ∧
      ((d.cards.getD i default).text = none →
        ((d.number_sequence start step).cards.getD i default).text = none) ∧
      (∀ t, (d.cards.getD i default).text = some t → t.length ≤ 80 →
        start + i * step < 10 ^ 20 →
        ((d.number_sequence start step).cards.getD i default).text =
          some ((t ++ List.replicate (80 - t.length) ' ').take
              (80 - (format_right_aligned 8 (start + i * step)).length) ++
            format_right_aligned 8 (start + i * step))) := by
  constructor
  · exact number_sequence_go_length step d.cards start
  · intro i hi
    have hcard : (d.number_sequence start step).cards.getD i default =
        number_sequence_card (start + i * step) (d.cards.getD i default) :=
      number_sequence_go_getD step d.cards start i hi
    rw [hcard]
    generalize d.cards.getD i default = c
    refine ⟨?_, ?_, ?_⟩
    · cases ht : c.text with
      | none => simp [number_sequence_card, ht]
      | some t => simp [number_sequence_card, ht]
    · intro ht
      simp [number_sequence_card, ht]
    · intro t ht hlen hv
      have hfmt : (format_right_aligned 8 (start + i * step)).length ≤ 80 :=
        format_right_aligned_length_le _ hv
      have hpad : (t ++ List.replicate (MAX_COLS - t.length) ' ').length = 80 := by
        simp only [List.length_append, List.length_replicate, MAX_COLS]
        omega
      have hfit : (MAX_COLS - (format_right_aligned 8 (start + i * step)).length) +
          (format_right_aligned 8 (start + i * step)).length ≤
          (t ++ List.replicate (MAX_COLS - t.length) ' ').length := by
        rw [hpad]
        simp only [MAX_COLS]
        omega
      simp only [number_sequence_card, ht]
      rw [number_sequence_write_eq _ _ _ hfit]
      rw [List.drop_eq_nil_of_le (by rw [hpad]; simp only [MAX_COLS]; omega)]
      simp only [MAX_COLS, List.append_nil]

/-- Witness for C4 (amended): `number_sequence(10, 10)` on a 3-card deck
yields sequence values 10, 20, 30 in card order. -/
theorem C4_number_sequence_assigns_witness :
    (((Deck.mk sample_header [sample_card, sample_card, sample_card]).number_sequence
        10 10).cards.getD 0 default).seq = some 10 ∧
    (((Deck.mk sample_header [sample_card, sample_card, sample_card]).number_sequence
        10 10).cards.getD 1 default).seq = some 20 ∧
    (((Deck.mk sample_header [sample_card, sample_card, sample_card]).number_sequence
        10 10).cards.getD 2 default).seq = some 30 :=
  ⟨((C4_number_sequence_assigns
        (Deck.mk sample_header [sample_card, sample_card, sample_card]) 10 10).2 0
      (by decide)).1,
    ((C4_number_sequence_assigns
        (Deck.mk sample_header [sample_card, sample_card, sample_card]) 10 10).2 1
      (by decide)).1,
    ((C4_number_sequence_assigns
        (Deck.mk sample_header [sample_card, sample_card, sample_card]) 10 10).2 2
      (by decide)).1⟩

/- ===== C3 ===== -/

/-- Counterexample for C3 as stated: for a 10-digit sequence number the
formatted field `format!("{:>9}", seq)` is 10 characters long, so
`with_sequence` writes into column 71 (0-based index 70) — outside the
claimed rightmost columns 72–80: on a blank card, column 71 was a space and
now holds '1'. -/
theorem C3_counterexample_ten_digit_seq :
    (PunchCard.with_sequence Ibm029Encoder.encode_char
        ⟨List.replicate 80 0, List.replicate 80 ' '⟩ 1000000000).map
      (fun c => c.raw_text[70]?) = some (some '1') ∧
    (List.replicate 80 ' ')[70]? = some ' ' := by decide

/-- Every entry of `List.enumFrom k l` has first component in
`[k, k + l.length)`. -/
theorem mem_enumFrom_bounds {α : Type} (l : List α) :
    ∀ (k : Nat) (p : Nat × α), p ∈ List.enumFrom k l →
      k ≤ p.1 ∧ p.1 < k + l.length := by
  induction l with
  | nil => intro k p hp; simp [List.enumFrom] at hp
  | cons a s ih =>
    intro k p hp
    simp only [List.enumFrom, List.mem_cons] at hp
    rcases hp with rfl | hp
    · simp
    · have := ih (k + 1) p hp
      simp
      omega

/-- Columns whose index is written by no step of the sequence-stamping loop
keep their character and mask. -/
theorem with_sequence_loop_frame (enc : Char → Option Nat) (l : List (Nat × Char)) :
    ∀ (chars : List Char) (cols : List Nat) (chars2 : List Char) (cols2 : List Nat),
      with_sequence_loop enc l chars cols = some (chars2, cols2) →
      ∀ i, (∀ p ∈ l, p.1 ≠ i) → chars2[i]? = chars[i]? ∧ cols2[i]? = cols[i]? := by
  induction l with
  | nil =>
    intro chars cols chars2 cols2 h i _
    simp [with_sequence_loop] at h
    rw [h.1, h.2]
    exact ⟨rfl, rfl⟩
  | cons q rest ih =>
    intro chars cols chars2 cols2 h i hni
    have hq : q.1 ≠ i := hni q (by simp)
    rw [with_sequence_loop] at h
    split_ifs at h with hblank
    · exact ih chars cols chars2 cols2 h i (fun p hp => hni p (by simp [hp]))
    · cases henc : enc q.2 with
      | none => rw [henc] at h; simp at h
      | some m =>
        rw [henc] at h
        have := ih (chars.set q.1 q.2) (cols.set q.1 m) chars2 cols2 h i
          (fun p hp => hni p (by simp [hp]))
        rw [List.getElem?_set_ne hq, List.getElem?_set_ne hq] at this
        exact this

/-- Columns holding a non-space character are never touched by the
sequence-stamping loop. -/
theorem with_sequence_loop_nonblank (enc : Char → Option Nat) (l : List (Nat × Char)) :
    ∀ (chars : List Char) (cols : List Nat) (chars2 : List Char) (cols2 : List Nat),
      with_sequence_loop enc l chars cols = some (chars2, cols2) →
      ∀ i, chars.getD i ' ' ≠ ' ' → chars2[i]? = chars[i]? ∧ cols2[i]? = cols[i]? := by
  induction l with
  | nil =>
    intro chars cols chars2 cols2 h i _
    simp [with_sequence_loop] at h
    rw [h.1, h.2]
    exact ⟨rfl, rfl⟩
  | cons q rest ih =>
    intro chars cols chars2 cols2 h i hnb
    rw [with_sequence_loop] at h
    split_ifs at h with hblank
    · exact ih chars cols chars2 cols2 h i hnb
    · have hqi : q.1 ≠ i := by
        intro he
        rw [he] at hblank
        exact hnb (by simpa using hblank)
      cases henc : enc q.2 with
      | none => rw [henc] at h; simp at h
      | some m =>
        rw [henc] at h
        have hnb2 : (chars.set q.1 q.2).getD i ' ' ≠ ' ' := by
          rw [List.getD_eq_getElem?_getD, List.getElem?_set_ne hqi,
            ← List.getD_eq_getElem?_getD]
          exact hnb
        have := ih (chars.set q.1 q.2) (cols.set q.1 m) chars2 cols2 h i hnb2
        rw [List.getElem?_set_ne hqi, List.getElem?_set_ne hqi] at this
        exact this

/-- `PunchCard.with_sequence` with its let-bindings expanded. -/
theorem with_sequence_eq (enc : Char → Option Nat) (card : PunchCard) (seq : Nat) :
    PunchCard.with_sequence enc card seq =
      (with_sequence_loop enc
          ((format_right_aligned 9 seq).enum.map
            (fun p => (COLS - (format_right_aligned 9 seq).length + p.1, p.2)))
          (if card.raw_text.length < COLS then
            card.raw_text ++ List.replicate (COLS - card.raw_text.length) ' '
          else card.raw_text) card.cols).map
        (fun st => ⟨st.2, st.1⟩) := rfl

/-- C3 (amended): for sequence numbers of at most 9 decimal digits
(`seq < 10^9`, which covers the conventional card numbering range; larger
values make the `format!("{:>9}")` field wider than 9 and spill left of
column 72), a successful `with_sequence` touches only columns 72–80
(0-based indices 71–79): every column outside that range keeps both its
character (relative to the space-padded 80-column text) and its hole mask,
and every column whose character was non-blank before the call keeps both
its character and its hole mask. -/
theorem C3_with_sequence_non_destructive (card : PunchCard) (seq : Nat)
    (card2 : PunchCard) (hlen : card.raw_text.length ≤ 80) (hseq : seq < 10 ^ 9)
    (h : PunchCard.with_sequence Ibm029Encoder.encode_char card seq = some card2) :
    (∀ i, i < 71 ∨ 80 ≤ i →
      card2.raw_text[i]? =
        (card.raw_text ++ List.replicate (80 - card.raw_text.length) ' ')[i]? ∧
      card2.cols[i]? = card.cols[i]?) ∧
    (∀ i,
      (card.raw_text ++ List.replicate (80 - card.raw_text.length) ' ').getD i ' ' ≠ ' ' →
      card2.raw_text[i]? =
        (card.raw_text ++ List.replicate (80 - card.raw_text.length) ' ')[i]? ∧
      card2.cols[i]? = card.cols[i]?) := by
  have hsl : (Nat.repr seq).toList.length ≤ 9 := Nat.repr_length seq 9 (by omega) hseq
  have hlen9 : (format_right_aligned 9 seq).length = 9 := by
    unfold format_right_aligned
    simp only [List.length_append, List.length_replicate]
    omega
  have hstart : COLS - (format_right_aligned 9 seq).length = 71 := by
    rw [hlen9]
    rfl
  have hchars : (if card.raw_text.length < COLS then
        card.raw_text ++ List.replicate (COLS - card.raw_text.length) ' '
      else card.raw_text) =
      card.raw_text ++ List.replicate (80 - card.raw_text.length) ' ' := by
    split_ifs with hlt
    · rfl
    · have h80 : card.raw_text.length = 80 := by
        simp only [COLS] at hlt
        omega
      rw [h80]
      simp
  rw [with_sequence_eq, hchars, hstart] at h
  cases hloop : with_sequence_loop Ibm029Encoder.encode_char
      ((format_right_aligned 9 seq).enum.map (fun p => (71 + p.1, p.2)))
      (card.raw_text ++ List.replicate (80 - card.raw_text.length) ' ')
      card.cols with
  | none => rw [hloop] at h; simp at h
  | some st =>
    obtain ⟨chars2, cols2⟩ := st
    rw [hloop] at h
    simp only [Option.map] at h
    injection h with hcc
    have hbounds : ∀ p ∈ (format_right_aligned 9 seq).enum.map
        (fun p => (71 + p.1, p.2)), 71 ≤ p.1 ∧ p.1 < 80 := by
      intro p hp
      rcases List.mem_map.mp hp with ⟨q, hq, rfl⟩
      have hb : 0 ≤ q.1 ∧ q.1 < 0 + (format_right_aligned 9 seq).length :=
        mem_enumFrom_bounds (format_right_aligned 9 seq) 0 q hq
      simp only
      omega
    constructor
    · intro i hi
      have hframe := with_sequence_loop_frame Ibm029Encoder.encode_char
        ((format_right_aligned 9 seq).enum.map (fun p => (71 + p.1, p.2)))
        (card.raw_text ++ List.replicate (80 - card.raw_text.length) ' ')
        card.cols chars2 cols2 hloop i
        (fun p hp => by have := hbounds p hp; omega)
      rw [← hcc]
      exact hframe
    · intro i hnb
      have hframe := with_sequence_loop_nonblank Ibm029Encoder.encode_char
        ((format_right_aligned 9 seq).enum.map (fun p => (71 + p.1, p.2)))
        (card.raw_text ++ List.replicate (80 - card.raw_text.length) ' ')
        card.cols chars2 cols2 hloop i hnb
      rw [← hcc]
      exact hframe

/-- Witness for C3 (amended): stamping 42 on a blank card leaves column 1
blank and its mask zero. -/
theorem C3_with_sequence_non_destructive_witness :
    sample_seq42_punchcard.raw_text[0]? =
      (sample_blank_punchcard.raw_text ++
        List.replicate (80 - sample_blank_punchcard.raw_text.length) ' ')[0]? ∧
    sample_seq42_punchcard.cols[0]? = sample_blank_punchcard.cols[0]? :=
  (C3_with_sequence_non_destructive sample_blank_punchcard 42 sample_seq42_punchcard
      (by decide) (by decide) (by decide)).1 0 (Or.inl (by decide))

/- ===== C9 ===== -/

/-- Each row-line body of `render_ascii` has exactly 80 cells. -/
theorem render_row_length (card : PunchCard) (mark blank : Char) (r : Nat) :
    (card.render_row mark blank r).length = 80 := by
  simp [PunchCard.render_row, COLS]

/-- Cell `c` of row-line body `r`: the mark character exactly when bit
`rowBit r` of column `c`'s mask is set. -/
theorem render_row_getD (card : PunchCard) (mark blank : Char) (r c : Nat)
    (hc : c < 80) :
    (card.render_row mark blank r).getD c ' ' =
      if ((card.cols.getD c 0) >>> rowBit r) &&& 1 = 1 then mark else blank := by
  unfold PunchCard.render_row
  simp only [COLS]
  rw [List.getD_eq_getElem?_getD, List.getElem?_map, List.getElem?_range hc]
  rfl

/-- Indexing into a row line (3-character label, " |", 80 cells, "|") at
position `5 + c` reads cell `c`. -/
theorem row_line_getD (pre1 pre2 body post : List Char) (c : Nat)
    (h1 : pre1.length = 3) (h2 : pre2.length = 2) (hc : c < body.length) :
    (pre1 ++ (pre2 ++ (body ++ post))).getD (5 + c) ' ' = body.getD c ' ' := by
  rw [List.getD_eq_getElem?_getD, List.getD_eq_getElem?_getD,
    List.getElem?_append_right (by omega),
    List.getElem?_append_right (by omega),
    show 5 + c - pre1.length - pre2.length = c from by omega,
    List.getElem?_append, if_pos hc]

/-- C9: ASCII rendering emits, after the header, ruler, text and separator
lines, the 12 physical rows in the order 12, 11, 0, 1, ..., 9, each a line
whose 80-cell body shows the mark character in column `c` exactly when that
physical row's hole is punched in column `c` (per the documented mask
layout); and rendering the Hollerith encoding of "HELLO" (padded to 80
columns) in `AsciiX` style produces exactly the chart-expected output: `X`
at the hole positions of H, E, L, L, O and blanks in columns 6–80. -/
theorem C9_ascii_rendering (card : PunchCard) (mark blank : Char) (r c : Nat)
    (hr : r < 12) (hc : c < 80) :
    ((card.render_ascii mark blank).length = 17 ∧
      ((card.render_ascii mark blank).drop 4).length = 13 ∧
      (card.render_row mark blank r).length = 80 ∧
      (((card.render_ascii mark blank).drop 4).getD r []).getD (5 + c) ' ' =
        (if hole_punched card (physical_rows.getD r 0) c then mark else blank)) ∧
    (PunchCard.from_str Ibm029Encoder.encode_char hello_text).map
      (fun hcard => hcard.render RenderStyle.AsciiX) = some hello_expected_render := by
  refine ⟨⟨?_, ?_, render_row_length card mark blank r, ?_⟩, ?_⟩
  · simp [PunchCard.render_ascii, row_labels]
  · simp [PunchCard.render_ascii, row_labels]
  · interval_cases r
    · rw [show ((card.render_ascii mark blank).drop 4).getD 0 [] =
          pad_left 3 ("12".toList) ++
            ([' ', '|'] ++ (card.render_row mark blank 0 ++ ['|'])) from rfl,
        row_line_getD _ _ _ _ c (by decide) (by decide)
          (by rw [render_row_length]; exact hc),
        render_row_getD card mark blank 0 c hc]
      simp [hole_punched, physical_rows, rowBit, Nat.testBit_to_div_mod, Nat.shiftRight_eq_div_pow]
    · rw [show ((card.render_ascii mark blank).drop 4).getD 1 [] =
          pad_left 3 ("11".toList) ++
            ([' ', '|'] ++ (card.render_row mark blank 1 ++ ['|'])) from rfl,
        row_line_getD _ _ _ _ c (by decide) (by decide)
          (by rw [render_row_length]; exact hc),
        render_row_getD card mark blank 1 c hc]
      simp [hole_punched, physical_rows, rowBit, Nat.testBit_to_div_mod, Nat.shiftRight_eq_div_pow]
    · rw [show ((card.render_ascii mark blank).drop 4).getD 2 [] =
          pad_left 3 (" 0".toList) ++
            ([' ', '|'] ++ (card.render_row mark blank 2 ++ ['|'])) from rfl,
        row_line_getD _ _ _ _ c (by decide) (by decide)
          (by rw [render_row_length]; exact hc),
        render_row_getD card mark blank 2 c hc]
      simp [hole_punched, physical_rows, rowBit, Nat.testBit_to_div_mod, Nat.shiftRight_eq_div_pow]
    · rw [show ((card.render_ascii mark blank).drop 4).getD 3 [] =
          pad_left 3 (" 1".toList) ++
            ([' ', '|'] ++ (card.render_row mark blank 3 ++ ['|'])) from rfl,
        row_line_getD _ _ _ _ c (by decide) (by decide)
          (by rw [render_row_length]; exact hc),
        render_row_getD card mark blank 3 c hc]
      simp [hole_punched, physical_rows, rowBit, Nat.testBit_to_div_mod, Nat.shiftRight_eq_div_pow]
    · rw [show ((card.render_ascii mark blank).drop 4).getD 4 [] =
          pad_left 3 (" 2".toList) ++
            ([' ', '|'] ++ (card.render_row mark blank 4 ++ ['|'])) from rfl,
        row_line_getD _ _ _ _ c (by decide) (by decide)
          (by rw [render_row_length]; exact hc),
        render_row_getD card mark blank 4 c hc]
      simp [hole_punched, physical_rows, rowBit, Nat.testBit_to_div_mod, Nat.shiftRight_eq_div_pow]
    · rw [show ((card.render_ascii mark blank).drop 4).getD 5 [] =
          pad_left 3 (" 3".toList) ++
            ([' ', '|'] ++ (card.render_row mark blank 5 ++ ['|'])) from rfl,
        row_line_getD _ _ _ _ c (by decide) (by decide)
          (by rw [render_row_length]; exact hc),
        render_row_getD card mark blank 5 c hc]
      simp [hole_punched, physical_rows, rowBit, Nat.testBit_to_div_mod, Nat.shiftRight_eq_div_pow]
    · rw [show ((card.render_ascii mark blank).drop 4).getD 6 [] =
          pad_left 3 (" 4".toList) ++
            ([' ', '|'] ++ (card.render_row mark blank 6 ++ ['|'])) from rfl,
        row_line_getD _ _ _ _ c (by decide) (by decide)
          (by rw [render_row_length]; exact hc),
        render_row_getD card mark blank 6 c hc]
      simp [hole_punched, physical_rows, rowBit, Nat.testBit_to_div_mod, Nat.shiftRight_eq_div_pow]
    · rw [show ((card.render_ascii mark blank).drop 4).getD 7 [] =
          pad_left 3 (" 5".toList) ++
            ([' ', '|'] ++ (card.render_row mark blank 7 ++ ['|'])) from rfl,
        row_line_getD _ _ _ _ c (by decide) (by decide)
          (by rw [render_row_length]; exact hc),
        render_row_getD card mark blank 7 c hc]
      simp [hole_punched, physical_rows, rowBit, Nat.testBit_to_div_mod, Nat.shiftRight_eq_div_pow]
    · rw [show ((card.render_ascii mark blank).drop 4).getD 8 [] =
          pad_left 3 (" 6".toList) ++
            ([' ', '|'] ++ (card.render_row mark blank 8 ++ ['|'])) from rfl,
        row_line_getD _ _ _ _ c (by decide) (by decide)
          (by rw [render_row_length]; exact hc),
        render_row_getD card mark blank 8 c hc]
      simp [hole_punched, physical_rows, rowBit, Nat.testBit_to_div_mod, Nat.shiftRight_eq_div_pow]
    · rw [show ((card.render_ascii mark blank).drop 4).getD 9 [] =
          pad_left 3 (" 7".toList) ++
            ([' ', '|'] ++ (card.render_row mark blank 9 ++ ['|'])) from rfl,
        row_line_getD _ _ _ _ c (by decide) (by decide)
          (by rw [render_row_length]; exact hc),
        render_row_getD card mark blank 9 c hc]
      simp [hole_punched, physical_rows, rowBit, Nat.testBit_to_div_mod, Nat.shiftRight_eq_div_pow]
    · rw [show ((card.render_ascii mark blank).drop 4).getD 10 [] =
          pad_left 3 (" 8".toList) ++
            ([' ', '|'] ++ (card.render_row mark blank 10 ++ ['|'])) from rfl,
        row_line_getD _ _ _ _ c (by decide) (by decide)
          (by rw [render_row_length]; exact hc),
        render_row_getD card mark blank 10 c hc]
      simp [hole_punched, physical_rows, rowBit, Nat.testBit_to_div_mod, Nat.shiftRight_eq_div_pow]
    · rw [show ((card.render_ascii mark blank).drop 4).getD 11 [] =
          pad_left 3 (" 9".toList) ++
            ([' ', '|'] ++ (card.render_row mark blank 11 ++ ['|'])) from rfl,
        row_line_getD _ _ _ _ c (by decide) (by decide)
          (by rw [render_row_length]; exact hc),
        render_row_getD card mark blank 11 c hc]
      simp [hole_punched, physical_rows, rowBit, Nat.testBit_to_div_mod, Nat.shiftRight_eq_div_pow]
  · decide

/-- Witness for C9 at a concrete card and cell: on the blank card, row-line 0
(physical row 12), column 1 shows blank, matching its unpunched mask. -/
theorem C9_ascii_rendering_witness :
    (((sample_blank_punchcard.render_ascii 'X' ' ').drop 4).getD 0 []).getD (5 + 0) ' ' =
      (if hole_punched sample_blank_punchcard (physical_rows.getD 0 0) 0
        then 'X' else ' ') :=
  ((C9_ascii_rendering sample_blank_punchcard 'X' ' ' 0 0 (by decide) (by decide)).1).2.2.2
